import Mathlib

/-!
Verification of the KoeKit audio-synthesis core against its specification.

The C++ sources are shallowly embedded: float/double arithmetic is modelled
by exact rational arithmetic (`ℚ`), the 16-bit quantized wavetable samples
by `ℤ`, and the 32-bit unsigned xorshift state by `ℕ` reduced mod `2^32`.
Each definition mirrors one function of the repository, keeping its name.
-/

namespace KoeKit

/-- Model of `std::clamp(v, lo, hi)` over `ℚ`: `lo` if `v < lo`, `hi` if `hi < v`,
otherwise `v` (the behaviour of the C++ call for `lo ≤ hi`). -/
def clampQ (v lo hi : ℚ) : ℚ :=
  if v < lo then lo else if hi < v then hi else v

/-- Model of `static_cast<int>(x)` for a real-valued `x`: truncation toward zero. -/
def truncQ (x : ℚ) : ℤ :=
  if x < 0 then -⌊-x⌋ else ⌊x⌋

/-- Model of `SAMPLE_SCALE` from wavetable_generator.h (full-scale 16-bit constant). -/
def SAMPLE_SCALE : ℚ := 32767

/-- Model of `SAMPLE_RATE_F` from KoeKit.h (`KOEKIT_SAMPLE_RATE`, 22050 Hz). -/
def SAMPLE_RATE_F : ℚ := 22050

/-- Model of `WAVETABLE_SIZE` from KoeKit.h (`KOEKIT_WAVETABLE_SIZE`, 1024). -/
def WAVETABLE_SIZE : ℕ := 1024

/-- Model of `Wavetable<SIZE>` from wavetable_generator.h: a fixed number of quantized
16-bit samples.  The sample array is modelled as a function `ℕ → ℤ`; indices
`0 .. size-1` stand for the entries of `samples_`. -/
structure Wavetable where
  size : ℕ
  samples : ℕ → ℤ

/-- Model of `Wavetable::getSample`: `samples_[index % SIZE]`. -/
def Wavetable.getSample (w : Wavetable) (index : ℕ) : ℤ :=
  w.samples (index % w.size)

/-- Model of `Wavetable::getInterpolated`.  The two `while` loops reduce the index
into `[0, SIZE)`; for a real index that reduction is exactly
`index - SIZE * ⌊index / SIZE⌋`.  Then `i1 = static_cast<size_t>(index)`,
`i2 = (i1 + 1) % SIZE`, `frac = index - i1`, and the result is
`(s1 + frac * (s2 - s1)) / SAMPLE_SCALE`. -/
def Wavetable.getInterpolated (w : Wavetable) (index : ℚ) : ℚ :=
  let xw : ℚ := index - (w.size : ℚ) * ⌊index / (w.size : ℚ)⌋
  let i1 : ℕ := (⌊xw⌋).toNat
  let i2 : ℕ := (i1 + 1) % w.size
  let frac : ℚ := xw - (i1 : ℚ)
  let s1 : ℚ := (w.samples i1 : ℚ)
  let s2 : ℚ := (w.samples i2 : ℚ)
  (s1 + frac * (s2 - s1)) / SAMPLE_SCALE

/-- Model of `makeWavetable<SIZE>(generator)` from wavetable_generator.h: each entry is
`static_cast<int16_t>(std::clamp(generator(i), -1.0f, 1.0f) * SAMPLE_SCALE)`. -/
def makeWavetable (SIZE : ℕ) (generator : ℕ → ℚ) : Wavetable :=
  ⟨SIZE, fun i => truncQ (clampQ (generator i) (-1) 1 * SAMPLE_SCALE)⟩

/-- Model of `PhaseAccumulator` from oscillator.h. -/
structure PhaseAccumulator where
  phase : ℚ
  increment : ℚ
  sample_rate : ℚ

/-- Initial `PhaseAccumulator` state (`phase_ = 0`, `increment_ = 0`,
`sample_rate_ = SAMPLE_RATE_F`). -/
def PhaseAccumulator.init : PhaseAccumulator :=
  ⟨0, 0, SAMPLE_RATE_F⟩

/-- Model of `PhaseAccumulator::setFrequency`: `increment_ = frequency / sample_rate_`
(no clamping of any kind). -/
def PhaseAccumulator.setFrequency (pa : PhaseAccumulator) (frequency : ℚ) :
    PhaseAccumulator :=
  { pa with increment := frequency / pa.sample_rate }

/-- Model of `PhaseAccumulator::getCurrentFrequency`: `increment_ * sample_rate_`. -/
def PhaseAccumulator.getCurrentFrequency (pa : PhaseAccumulator) : ℚ :=
  pa.increment * pa.sample_rate

/-- Model of `PhaseAccumulator::tick`: add the increment, subtract 1 once if the
result is `≥ 1`, store and return the new phase. -/
def PhaseAccumulator.tick (pa : PhaseAccumulator) : ℚ × PhaseAccumulator :=
  let p0 := pa.phase + pa.increment
  let p := if 1 ≤ p0 then p0 - 1 else p0
  (p, { pa with phase := p })

/-- Model of `PhaseAccumulator::reset`: zero the phase. -/
def PhaseAccumulator.reset (pa : PhaseAccumulator) : PhaseAccumulator :=
  { pa with phase := 0 }

/-- Model of `PhaseAccumulator::setPhase`: the stored value is reduced by the two
`while` loops into `[0, 1)`, i.e. to the fractional part `phase - ⌊phase⌋`. -/
def PhaseAccumulator.setPhase (pa : PhaseAccumulator) (phase : ℚ) :
    PhaseAccumulator :=
  { pa with phase := phase - ⌊phase⌋ }

/-- The mutating calls a caller can interleave on a `PhaseAccumulator`
(frequency fixed, as in claim C3). -/
inductive PAOp
  | tickOp
  | setPhaseOp (x : ℚ)
  | resetOp

/-- Apply one `PAOp`. -/
def PhaseAccumulator.applyOp (pa : PhaseAccumulator) : PAOp → PhaseAccumulator
  | .tickOp => (pa.tick).2
  | .setPhaseOp x => pa.setPhase x
  | .resetOp => pa.reset

/-- Run a sequence of calls. -/
def PhaseAccumulator.run (pa : PhaseAccumulator) (ops : List PAOp) :
    PhaseAccumulator :=
  ops.foldl PhaseAccumulator.applyOp pa

/-- Model of `WavetableOscillator<TABLE_SIZE>` from oscillator.h. -/
structure WavetableOscillator where
  pa : PhaseAccumulator
  wavetable : Wavetable
  amplitude : ℚ

/-- Model of `WavetableOscillator::setAmplitude`: `std::clamp(amplitude, 0.0f, 1.0f)`. -/
def WavetableOscillator.setAmplitude (o : WavetableOscillator) (amplitude : ℚ) :
    WavetableOscillator :=
  { o with amplitude := clampQ amplitude 0 1 }

/-- Model of `WavetableOscillator::setFrequency` (delegates to the phase accumulator). -/
def WavetableOscillator.setFrequency (o : WavetableOscillator) (frequency : ℚ) :
    WavetableOscillator :=
  { o with pa := o.pa.setFrequency frequency }

/-- Model of `WavetableOscillator::getFrequency`. -/
def WavetableOscillator.getFrequency (o : WavetableOscillator) : ℚ :=
  o.pa.getCurrentFrequency

/-- Model of `WavetableOscillator::process`: advance the phase, scale by the table
size, interpolate, scale by amplitude. -/
def WavetableOscillator.process (o : WavetableOscillator) :
    ℚ × WavetableOscillator :=
  let t := o.pa.tick
  let table_index : ℚ := t.1 * (o.wavetable.size : ℚ)
  (o.wavetable.getInterpolated table_index * o.amplitude, { o with pa := t.2 })

/-- Model of `WavetableOscillator::reset`: zero the phase only. -/
def WavetableOscillator.reset (o : WavetableOscillator) : WavetableOscillator :=
  { o with pa := o.pa.reset }

/-- One xorshift32 update from `NoiseGenerator::process`:
`x ^= x << 13; x ^= x >> 17; x ^= x << 5;` on a 32-bit word. -/
def xorshift32 (x : ℕ) : ℕ :=
  let a := x ^^^ ((x <<< 13) % 2 ^ 32)
  let b := a ^^^ (a >>> 17)
  b ^^^ ((b <<< 5) % 2 ^ 32)

/-- Model of `NoiseGenerator` from oscillator.h. -/
structure NoiseGenerator where
  state : ℕ
  amplitude : ℚ

/-- The `NoiseGenerator(uint32_t seed)` constructor:
`state_(seed == 0 ? 1 : seed)`, `amplitude_ = 1.0f`. -/
def NoiseGenerator.init (seed : ℕ) : NoiseGenerator :=
  ⟨if seed = 0 then 1 else seed, 1⟩

/-- Model of `NoiseGenerator::reset`: `state_ = (seed == 0) ? 1 : seed`. -/
def NoiseGenerator.resetSeed (n : NoiseGenerator) (seed : ℕ) : NoiseGenerator :=
  { n with state := if seed = 0 then 1 else seed }

/-- Model of `NoiseGenerator::setAmplitude`: clamped to `[0, 1]`. -/
def NoiseGenerator.setAmplitude (n : NoiseGenerator) (amplitude : ℚ) :
    NoiseGenerator :=
  { n with amplitude := clampQ amplitude 0 1 }

/-- Model of `NoiseGenerator::process`: one xorshift update, mapped to `[-1, 1]` and
scaled by the amplitude. -/
def NoiseGenerator.process (n : NoiseGenerator) : ℚ × NoiseGenerator :=
  let s := xorshift32 n.state
  ((((s : ℚ) / 4294967295) * 2 - 1) * n.amplitude, { n with state := s })

/-- Model of `Filter::OnePole` from filter.h. -/
structure OnePole where
  y1 : ℚ
  a0 : ℚ
  b1 : ℚ
  sample_rate : ℚ
  cutoff : ℚ

/-- The cutoff value stored by `Filter::OnePole::setCutoff`:
`std::clamp(cutoff, 1.0f, sample_rate_ * 0.49f)`.  (The coefficient update
also recomputes `a0_`/`b1_` through `exp`; the stored parameter is what
claim C1 is about, and C7 holds for arbitrary coefficients.) -/
def OnePole.storedCutoff (sample_rate cutoff : ℚ) : ℚ :=
  clampQ cutoff 1 (sample_rate * (49 / 100))

/-- Model of `Filter::OnePole::processLPF`: `y1_ = a0_ * input + b1_ * y1_`,
returning the new `y1_`. -/
def OnePole.processLPF (f : OnePole) (input : ℚ) : ℚ × OnePole :=
  let y := f.a0 * input + f.b1 * f.y1
  (y, { f with y1 := y })

/-- Model of `Filter::OnePole::processHPF`: `input - processLPF(input)`. -/
def OnePole.processHPF (f : OnePole) (input : ℚ) : ℚ × OnePole :=
  let l := f.processLPF input
  (input - l.1, l.2)

/-- The resonance value stored by `Filter::StateVariable::setParams`:
`std::clamp(resonance, 0.1f, 10.0f)`. -/
def StateVariable.storedResonance (resonance : ℚ) : ℚ :=
  clampQ resonance (1 / 10) 10

/-- The cutoff value stored by `Filter::StateVariable::setParams`:
`std::clamp(cutoff, 1.0f, sample_rate_ * 0.45f)`. -/
def StateVariable.storedCutoff (sample_rate cutoff : ℚ) : ℚ :=
  clampQ cutoff 1 (sample_rate * (45 / 100))

/-- Model of `PWM_MAX_VALUE` from audio_output.h: `(1 << 12) - 1`. -/
def PWM_MAX_VALUE : ℤ := 4095

/-- Model of `PWMAudioOutput::sampleToPWM` from audio_output.cpp: clamp the sample
to `[-1, 1]`, rescale by `(sample + 1) * 0.5`, multiply by `PWM_MAX_VALUE`,
truncate to an integer (`static_cast<uint16_t>`), clamp to
`[0, PWM_MAX_VALUE]`. -/
def sampleToPWM (sample : ℚ) : ℤ :=
  let c := clampQ sample (-1) 1
  let scaled := (c + 1) * (1 / 2)
  let pwm_value := truncQ (scaled * (PWM_MAX_VALUE : ℚ))
  if pwm_value < 0 then 0 else if PWM_MAX_VALUE < pwm_value then PWM_MAX_VALUE
  else pwm_value

/-- Model of `Envelope::ADSR::Stage` from envelope.h. -/
inductive Stage
  | IDLE
  | ATTACK
  | DECAY
  | SUSTAIN
  | RELEASE
deriving DecidableEq

/-- Model of `Envelope::ADSR` from envelope.h (state fields and parameters, with the
pre-calculated per-sample increments stored exactly as in the source). -/
structure ADSR where
  stage : Stage
  level : ℚ
  target : ℚ
  increment : ℚ
  attack_time : ℚ
  decay_time : ℚ
  sustain_level : ℚ
  release_time : ℚ
  sample_rate : ℚ
  attack_inc : ℚ
  decay_inc : ℚ
  release_inc : ℚ

/-- A fresh `Envelope::ADSR` with the member initializers of the source
(stage IDLE, level 0, times 0.01/0.1/0.7/0.3, increments 0) at sample rate
`sr`; the source's default `sr` is `SAMPLE_RATE_F`. -/
def ADSR.init (sr : ℚ) : ADSR :=
  ⟨.IDLE, 0, 0, 0, 1 / 100, 1 / 10, 7 / 10, 3 / 10, sr, 0, 0, 0⟩

/-- Model of `Envelope::ADSR::updateIncrements`. -/
def ADSR.updateIncrements (e : ADSR) : ADSR :=
  { e with
    attack_inc := 1 / (e.attack_time * e.sample_rate)
    decay_inc := (1 - e.sustain_level) / (e.decay_time * e.sample_rate)
    release_inc := e.sustain_level / (e.release_time * e.sample_rate) }

/-- Model of `Envelope::ADSR::setADSR`: floor the three times at 1 ms, clamp sustain
to `[0, 1]`, recompute the increments. -/
def ADSR.setADSR (e : ADSR) (attack decay sustain release : ℚ) : ADSR :=
  ADSR.updateIncrements
    { e with
      attack_time := max (1 / 1000) attack
      decay_time := max (1 / 1000) decay
      sustain_level := clampQ sustain 0 1
      release_time := max (1 / 1000) release }

/-- Model of `Envelope::ADSR::noteOn`. -/
def ADSR.noteOn (e : ADSR) : ADSR :=
  { e with stage := .ATTACK, target := 1, increment := e.attack_inc }

/-- Model of `Envelope::ADSR::noteOff`: no-op in IDLE, otherwise force RELEASE with
increment `-release_inc_`. -/
def ADSR.noteOff (e : ADSR) : ADSR :=
  if e.stage = .IDLE then e
  else { e with stage := .RELEASE, target := 0, increment := -e.release_inc }

/-- Model of `Envelope::ADSR::reset`. -/
def ADSR.resetEnv (e : ADSR) : ADSR :=
  { e with stage := .IDLE, level := 0, target := 0, increment := 0 }

/-- Model of `Envelope::ADSR::process` (the no-argument overload): one step of the
stage machine, returning the new level. -/
def ADSR.process (e : ADSR) : ℚ × ADSR :=
  match e.stage with
  | .IDLE => (0, { e with level := 0 })
  | .ATTACK =>
    let l := e.level + e.increment
    if 1 ≤ l then
      (1, { e with level := 1, stage := .DECAY, target := e.sustain_level,
                   increment := -e.decay_inc })
    else (l, { e with level := l })
  | .DECAY =>
    let l := e.level + e.increment
    if l ≤ e.sustain_level then
      (e.sustain_level, { e with level := e.sustain_level, stage := .SUSTAIN,
                                 increment := 0 })
    else (l, { e with level := l })
  | .SUSTAIN => (e.sustain_level, { e with level := e.sustain_level })
  | .RELEASE =>
    let l := e.level + e.increment
    if l ≤ 0 then
      (0, { e with level := 0, stage := .IDLE, increment := 0 })
    else (l, { e with level := l })

/-- Iterate `Envelope::ADSR::process` `n` times. -/
def ADSR.processN (e : ADSR) : ℕ → ADSR
  | 0 => e
  | n + 1 => ADSR.processN (e.process).2 n

/-- Model of `Envelope::AR::Stage` from envelope.h. -/
inductive StageAR
  | IDLE
  | ATTACK
  | RELEASE
deriving DecidableEq

/-- Model of `Envelope::AR` from envelope.h. -/
structure AR where
  stage : StageAR
  level : ℚ
  increment : ℚ
  attack_time : ℚ
  release_time : ℚ
  sample_rate : ℚ
  attack_inc : ℚ
  release_inc : ℚ

/-- A fresh `Envelope::AR` with the member initializers of the source at
sample rate `sr`. -/
def AR.init (sr : ℚ) : AR :=
  ⟨.IDLE, 0, 0, 1 / 100, 3 / 10, sr, 0, 0⟩

/-- Model of `Envelope::AR::updateIncrements`. -/
def AR.updateIncrements (e : AR) : AR :=
  { e with
    attack_inc := 1 / (e.attack_time * e.sample_rate)
    release_inc := 1 / (e.release_time * e.sample_rate) }

/-- Model of `Envelope::AR::setAR`. -/
def AR.setAR (e : AR) (attack release : ℚ) : AR :=
  AR.updateIncrements
    { e with
      attack_time := max (1 / 1000) attack
      release_time := max (1 / 1000) release }

/-- Model of `Envelope::AR::trigger`: always restart from ATTACK. -/
def AR.trigger (e : AR) : AR :=
  { e with stage := .ATTACK, increment := e.attack_inc }

/-- Model of `Envelope::AR::reset`. -/
def AR.resetEnv (e : AR) : AR :=
  { e with stage := .IDLE, level := 0, increment := 0 }

/-- Model of `Envelope::AR::process`. -/
def AR.process (e : AR) : ℚ × AR :=
  match e.stage with
  | .IDLE => (0, { e with level := 0 })
  | .ATTACK =>
    let l := e.level + e.increment
    if 1 ≤ l then
      (1, { e with level := 1, stage := .RELEASE, increment := -e.release_inc })
    else (l, { e with level := l })
  | .RELEASE =>
    let l := e.level + e.increment
    if l ≤ 0 then
      (0, { e with level := 0, stage := .IDLE, increment := 0 })
    else (l, { e with level := l })

/-- The calls of claim C10 on an `Envelope::ADSR`. -/
inductive ADSROp
  | noteOnOp
  | noteOffOp
  | resetOp
  | setADSROp (a d s r : ℚ)
  | processOp

/-- Apply one `ADSROp`. -/
def ADSR.applyOp (e : ADSR) : ADSROp → ADSR
  | .noteOnOp => e.noteOn
  | .noteOffOp => e.noteOff
  | .resetOp => e.resetEnv
  | .setADSROp a d s r => e.setADSR a d s r
  | .processOp => (e.process).2

/-- Run a sequence of calls on an `Envelope::ADSR`. -/
def ADSR.run (e : ADSR) (ops : List ADSROp) : ADSR :=
  ops.foldl ADSR.applyOp e

/-- The calls of claim C10 on an `Envelope::AR`. -/
inductive AROp
  | triggerOp
  | resetOp
  | setAROp (a r : ℚ)
  | processOp

/-- Apply one `AROp`. -/
def AR.applyOp (e : AR) : AROp → AR
  | .triggerOp => e.trigger
  | .resetOp => e.resetEnv
  | .setAROp a r => e.setAR a r
  | .processOp => (e.process).2

/-- Run a sequence of calls on an `Envelope::AR`. -/
def AR.run (e : AR) (ops : List AROp) : AR :=
  ops.foldl AR.applyOp e

/-- Model of `std::clamp` over the reals (used by the compile-time table generation,
whose generator is the mathematical sine). -/
noncomputable def clampR (v lo hi : ℝ) : ℝ :=
  if v < lo then lo else if hi < v then hi else v

/-- Model of `static_cast<int16_t>` of a real value: truncation toward zero. -/
noncomputable def truncR (x : ℝ) : ℤ :=
  if x < 0 then -⌊-x⌋ else ⌊x⌋

/-- One quantized entry of `makeWavetable`, for a real-valued generator:
`static_cast<int16_t>(std::clamp(g(i), -1.0f, 1.0f) * SAMPLE_SCALE)`. -/
noncomputable def quantizeR (x : ℝ) : ℤ :=
  truncR (clampR x (-1) 1 * 32767)

/-- The sine table of `Wavetables::Basic::makeSineTable`: 1024 entries
generated from `sin(2π·i/1024)`. -/
noncomputable def sineTable : Wavetable :=
  ⟨1024, fun i => quantizeR (Real.sin (2 * Real.pi * (i : ℝ) / 1024))⟩

/-- The oscillator of claim C2: sine table, frequency 440 Hz at sample rate
22050 Hz, amplitude 1.0, phase reset to zero. -/
noncomputable def c2Osc : WavetableOscillator :=
  WavetableOscillator.reset
    (WavetableOscillator.setFrequency ⟨⟨0, 0, 22050⟩, sineTable, 1⟩ 440)

/-- The value returned by the first `process()` call of claim C2's
oscillator. -/
noncomputable def c2FirstOut : ℚ :=
  (c2Osc.process).1

/-- Invariant maintained by every `Envelope::ADSR` operation: positive
sample rate, level and sustain in `[0, 1]`, nonnegative precomputed
increments, and stage-consistent sign of the active increment. -/
def ADSRInv (e : ADSR) : Prop :=
  0 < e.sample_rate ∧ 0 ≤ e.level ∧ e.level ≤ 1 ∧
  0 ≤ e.sustain_level ∧ e.sustain_level ≤ 1 ∧
  0 ≤ e.attack_inc ∧ 0 ≤ e.decay_inc ∧ 0 ≤ e.release_inc ∧
  (e.stage = .ATTACK → 0 ≤ e.increment) ∧
  (e.stage = .DECAY → e.increment ≤ 0) ∧
  (e.stage = .RELEASE → e.increment ≤ 0)

/-- Invariant maintained by every `Envelope::AR` operation. -/
def ARInv (e : AR) : Prop :=
  0 < e.sample_rate ∧ 0 ≤ e.level ∧ e.level ≤ 1 ∧
  0 ≤ e.attack_inc ∧ 0 ≤ e.release_inc ∧
  (e.stage = .ATTACK → 0 ≤ e.increment) ∧
  (e.stage = .RELEASE → e.increment ≤ 0)

/-- A concrete sustained ADSR state whose precomputed increments agree with
its parameters (as established by `setADSR`), used to instantiate C8. -/
def c8State : ADSR :=
  ⟨.SUSTAIN, 7 / 10, 1, 0, 1 / 100, 1 / 10, 7 / 10, 3 / 10, 22050, 0, 0,
    7 / 66150⟩

/-! ## Helper lemmas -/

lemma clampQ_bounds (v lo hi : ℚ) (h : lo ≤ hi) :
    lo ≤ clampQ v lo hi ∧ clampQ v lo hi ≤ hi := by
  unfold clampQ
  split_ifs with h1 h2 <;> constructor <;> linarith

lemma clampQ_eq_self (v lo hi : ℚ) (h1 : lo ≤ v) (h2 : v ≤ hi) :
    clampQ v lo hi = v := by
  unfold clampQ
  split_ifs <;> linarith

/-! ## Claim theorems -/

/-- C7: for the one-pole filter, for every input sample, every coefficient
setting (hence every cutoff), and every filter state, the low-pass and
high-pass outputs of the same call sum to the input sample, and both calls
leave the filter in the same state. -/
theorem onePole_lpf_hpf_complementary (f : OnePole) (input : ℚ) :
    (f.processLPF input).1 + (f.processHPF input).1 = input ∧
    (f.processHPF input).2 = (f.processLPF input).2 := by
  refine ⟨?_, rfl⟩
  simp only [OnePole.processLPF, OnePole.processHPF]
  ring

/-- C5: a wavetable of size `N` built from a generator bounded in `[-1, 1]`
is periodic: `getSample (i + N) = getSample i` for every `i`. -/
theorem wavetable_periodic (N : ℕ) (g : ℕ → ℚ) (hN : 0 < N)
    (hg : ∀ i, -1 ≤ g i ∧ g i ≤ 1) :
    ∀ i : ℕ,
      (makeWavetable N g).getSample (i + N) = (makeWavetable N g).getSample i := by
  intro i
  simp [makeWavetable, Wavetable.getSample, Nat.add_mod_right]

theorem wavetable_periodic_witness :
    (0 < 4 ∧ ∀ i : ℕ, -1 ≤ (0 : ℚ) ∧ (0 : ℚ) ≤ 1) ∧
    (makeWavetable 4 (fun _ => 0)).getSample (3 + 4) =
      (makeWavetable 4 (fun _ => 0)).getSample 3 :=
  ⟨⟨by norm_num, fun _ => ⟨by norm_num, by norm_num⟩⟩,
    wavetable_periodic 4 (fun _ => 0) (by norm_num)
      (fun _ => ⟨by norm_num, by norm_num⟩) 3⟩

lemma getInterpolated_natCast (w : Wavetable) (hN : 0 < w.size) (i : ℕ) :
    w.getInterpolated (i : ℚ) = (w.getSample i : ℚ) / SAMPLE_SCALE := by
  have hNQ : (0 : ℚ) < (w.size : ℚ) := by exact_mod_cast hN
  have hmodlt : i % w.size < w.size := Nat.mod_lt _ hN
  have hsum : ((i % w.size : ℕ) : ℚ) + ((i / w.size : ℕ) : ℚ) * (w.size : ℚ)
      = (i : ℚ) := by exact_mod_cast Nat.mod_add_div' i w.size
  have hdiv : (i : ℚ) / (w.size : ℚ)
      = ((i % w.size : ℕ) : ℚ) / (w.size : ℚ) + ((i / w.size : ℕ) : ℚ) := by
    rw [← hsum, add_div, mul_div_assoc, div_self (ne_of_gt hNQ), mul_one]
  have hfl0 : ⌊((i % w.size : ℕ) : ℚ) / (w.size : ℚ)⌋ = 0 := by
    rw [Int.floor_eq_zero_iff]
    constructor
    · positivity
    · rw [div_lt_one hNQ]
      exact_mod_cast hmodlt
  have hfl : ⌊(i : ℚ) / (w.size : ℚ)⌋ = ((i / w.size : ℕ) : ℤ) := by
    rw [hdiv, Int.floor_add_nat, hfl0, zero_add]
  have hxw : (i : ℚ) - (w.size : ℚ) * (⌊(i : ℚ) / (w.size : ℚ)⌋ : ℚ)
      = ((i % w.size : ℕ) : ℚ) := by
    rw [hfl]
    simp only [Int.cast_natCast]
    linarith [hsum]
  unfold Wavetable.getInterpolated
  rw [hxw]
  simp only [Int.floor_natCast, Int.toNat_natCast, sub_self, zero_mul,
    add_zero]
  simp [Wavetable.getSample]

/-- C6: for every wavetable and every integer index `i`, the interpolated
lookup at `i` equals the de-quantized exact sample `getSample(i) / 32767`
within quantization error `1/32767`. -/
theorem getInterpolated_integer_index (w : Wavetable) (hN : 0 < w.size)
    (i : ℕ) :
    |w.getInterpolated (i : ℚ) - (w.getSample i : ℚ) / 32767| ≤ 1 / 32767 := by
  rw [getInterpolated_natCast w hN i]
  unfold SAMPLE_SCALE
  norm_num

theorem getInterpolated_integer_index_witness :
    0 < (makeWavetable 4 (fun _ => 1 / 2)).size ∧
    |(makeWavetable 4 (fun _ => 1 / 2)).getInterpolated ((5 : ℕ) : ℚ)
        - ((makeWavetable 4 (fun _ => 1 / 2)).getSample 5 : ℚ) / 32767|
      ≤ 1 / 32767 :=
  ⟨by norm_num [makeWavetable],
    getInterpolated_integer_index _ (by norm_num [makeWavetable]) 5⟩

lemma sampleToPWM_eq_floor (s : ℚ) :
    sampleToPWM s = ⌊(clampQ s (-1) 1 + 1) * (1 / 2) * 4095⌋ := by
  obtain ⟨hc1, hc2⟩ := clampQ_bounds s (-1) 1 (by norm_num)
  have h0 : (0 : ℚ) ≤ (clampQ s (-1) 1 + 1) * (1 / 2) * 4095 := by nlinarith
  have h4 : (clampQ s (-1) 1 + 1) * (1 / 2) * 4095 ≤ 4095 := by nlinarith
  have htr : truncQ ((clampQ s (-1) 1 + 1) * (1 / 2) * 4095)
      = ⌊(clampQ s (-1) 1 + 1) * (1 / 2) * 4095⌋ := by
    unfold truncQ
    rw [if_neg (not_lt.mpr h0)]
  have hfl0 : 0 ≤ ⌊(clampQ s (-1) 1 + 1) * (1 / 2) * 4095⌋ :=
    Int.floor_nonneg.mpr h0
  have hfl4 : ⌊(clampQ s (-1) 1 + 1) * (1 / 2) * 4095⌋ ≤ 4095 := by
    have h := Int.floor_le_floor (α := ℚ) h4
    simpa using h
  simp only [sampleToPWM, PWM_MAX_VALUE]
  push_cast
  rw [htr, if_neg (not_lt.mpr hfl0), if_neg (not_lt.mpr hfl4)]

/-- C4: the sample-to-PWM conversion sends −1.0 to code 0, +1.0 to code
4095, 0.0 to 4095/2 within ±1, stays in `[0, 4095]`, and on every input
equals the linear map `(clamped + 1)/2 · 4095` up to truncation (< 1). -/
theorem sampleToPWM_spec :
    sampleToPWM (-1) = 0 ∧ sampleToPWM 1 = 4095 ∧
    |(sampleToPWM 0 : ℚ) - 4095 / 2| ≤ 1 ∧
    ∀ s : ℚ, (0 ≤ sampleToPWM s ∧ sampleToPWM s ≤ 4095) ∧
      |(sampleToPWM s : ℚ) - (clampQ s (-1) 1 + 1) / 2 * 4095| < 1 := by
  refine ⟨?_, ?_, ?_, ?_⟩
  · rw [sampleToPWM_eq_floor]
    norm_num [clampQ]
  · rw [sampleToPWM_eq_floor]
    norm_num [clampQ]
  · rw [sampleToPWM_eq_floor]
    norm_num [clampQ, abs_le]
  · intro s
    obtain ⟨hc1, hc2⟩ := clampQ_bounds s (-1) 1 (by norm_num)
    have h0 : (0 : ℚ) ≤ (clampQ s (-1) 1 + 1) * (1 / 2) * 4095 := by nlinarith
    have h4 : (clampQ s (-1) 1 + 1) * (1 / 2) * 4095 ≤ 4095 := by nlinarith
    rw [sampleToPWM_eq_floor s]
    have hfl0 : 0 ≤ ⌊(clampQ s (-1) 1 + 1) * (1 / 2) * 4095⌋ :=
      Int.floor_nonneg.mpr h0
    have hfl4 : ⌊(clampQ s (-1) 1 + 1) * (1 / 2) * 4095⌋ ≤ 4095 := by
      have h := Int.floor_le_floor (α := ℚ) h4
      simpa using h
    refine ⟨⟨hfl0, hfl4⟩, ?_⟩
    have hle : (↑⌊(clampQ s (-1) 1 + 1) * (1 / 2) * 4095⌋ : ℚ)
        ≤ (clampQ s (-1) 1 + 1) * (1 / 2) * 4095 := Int.floor_le _
    have hgt : (clampQ s (-1) 1 + 1) * (1 / 2) * 4095 - 1
        < (↑⌊(clampQ s (-1) 1 + 1) * (1 / 2) * 4095⌋ : ℚ) :=
      Int.sub_one_lt_floor _
    have hlin : (clampQ s (-1) 1 + 1) / 2 * 4095
        = (clampQ s (-1) 1 + 1) * (1 / 2) * 4095 := by ring
    rw [abs_lt, hlin]
    constructor <;> linarith

/-- C1 (failing input): `setFrequency(-440)` on the oscillator's phase
accumulator (sample rate 22050) performs no clamping: the stored frequency
reads back as −440 Hz, a negative value outside any valid frequency range,
although the documentation says frequencies are clamped to valid ranges. -/
theorem setFrequency_stores_unclamped :
    (PhaseAccumulator.init.setFrequency (-440)).getCurrentFrequency = -440 ∧
    (PhaseAccumulator.init.setFrequency (-440)).getCurrentFrequency < 0 ∧
    (PhaseAccumulator.init.setFrequency (-440)).increment = -440 / 22050 := by
  refine ⟨?_, ?_, ?_⟩ <;>
    norm_num [PhaseAccumulator.init, PhaseAccumulator.setFrequency,
      PhaseAccumulator.getCurrentFrequency, SAMPLE_RATE_F]

lemma pa_applyOp_invariant (pa : PhaseAccumulator)
    (hinc0 : 0 ≤ pa.increment) (hinc1 : pa.increment < 1)
    (hp0 : 0 ≤ pa.phase) (hp1 : pa.phase < 1) (op : PAOp) :
    (0 ≤ (pa.applyOp op).phase ∧ (pa.applyOp op).phase < 1) ∧
    (pa.applyOp op).increment = pa.increment := by
  cases op with
  | tickOp =>
    simp only [PhaseAccumulator.applyOp, PhaseAccumulator.tick]
    constructor
    · split_ifs with h <;> constructor <;> linarith
    · trivial
  | setPhaseOp x =>
    simp only [PhaseAccumulator.applyOp, PhaseAccumulator.setPhase]
    refine ⟨⟨?_, ?_⟩, trivial⟩
    · linarith [Int.floor_le x]
    · linarith [Int.lt_floor_add_one x]
  | resetOp =>
    simp only [PhaseAccumulator.applyOp, PhaseAccumulator.reset]
    exact ⟨⟨le_refl 0, by norm_num⟩, trivial⟩

lemma pa_run_invariant (ops : List PAOp) :
    ∀ pa : PhaseAccumulator, 0 ≤ pa.increment → pa.increment < 1 →
      0 ≤ pa.phase → pa.phase < 1 →
      0 ≤ (pa.run ops).phase ∧ (pa.run ops).phase < 1 := by
  induction ops with
  | nil => intro pa _ _ hp0 hp1; exact ⟨hp0, hp1⟩
  | cons op rest ih =>
    intro pa hinc0 hinc1 hp0 hp1
    obtain ⟨⟨h0, h1⟩, hinc⟩ := pa_applyOp_invariant pa hinc0 hinc1 hp0 hp1 op
    exact ih (pa.applyOp op) (hinc ▸ hinc0) (hinc ▸ hinc1) h0 h1

/-- C3 (amended): for a frequency `f` with `0 ≤ f < sample_rate` — i.e. a
per-sample increment in `[0, 1)` — each `tick()` adds the increment and
subtracts 1 exactly once when the sum reaches 1, returns the stored phase,
and the stored phase stays in `[0, 1)` across every sequence of `tick()`,
`setPhase()` and `reset()` calls. -/
theorem pa_tick_wraps (pa : PhaseAccumulator)
    (hinc0 : 0 ≤ pa.increment) (hinc1 : pa.increment < 1)
    (hp0 : 0 ≤ pa.phase) (hp1 : pa.phase < 1) :
    ((pa.tick).1 = (pa.tick).2.phase ∧
     (pa.tick).2.phase =
       (if 1 ≤ pa.phase + pa.increment then pa.phase + pa.increment - 1
        else pa.phase + pa.increment) ∧
     0 ≤ (pa.tick).2.phase ∧ (pa.tick).2.phase < 1) ∧
    (∀ ops : List PAOp, 0 ≤ (pa.run ops).phase ∧ (pa.run ops).phase < 1) ∧
    (∀ (q : PhaseAccumulator) (f : ℚ), 0 ≤ f → f < q.sample_rate →
      0 < q.sample_rate →
      0 ≤ (q.setFrequency f).increment ∧ (q.setFrequency f).increment < 1) := by
  refine ⟨⟨rfl, rfl, ?_⟩, ?_, ?_⟩
  · simp only [PhaseAccumulator.tick]
    split_ifs with h <;> constructor <;> linarith
  · intro ops
    exact pa_run_invariant ops pa hinc0 hinc1 hp0 hp1
  · intro q f hf0 hf1 hsr
    simp only [PhaseAccumulator.setFrequency]
    constructor
    · positivity
    · rw [div_lt_one hsr]
      exact hf1

theorem pa_tick_wraps_witness :
    ((0 : ℚ) ≤ 1 / 4 ∧ (1 / 4 : ℚ) < 1 ∧ (0 : ℚ) ≤ 9 / 10 ∧
      (9 / 10 : ℚ) < 1) ∧
    0 ≤ ((PhaseAccumulator.mk (9 / 10) (1 / 4) 22050).run [.tickOp]).phase ∧
    ((PhaseAccumulator.mk (9 / 10) (1 / 4) 22050).run [.tickOp]).phase < 1 :=
  ⟨⟨by norm_num, by norm_num, by norm_num, by norm_num⟩,
    (pa_tick_wraps (PhaseAccumulator.mk (9 / 10) (1 / 4) 22050)
      (by norm_num) (by norm_num) (by norm_num) (by norm_num)).2.1 [.tickOp]⟩

/-- C3 (counterexample): at frequency 44100 Hz and sample rate 22050 Hz the
increment is 2; a single `tick()` from phase 0 stores phase 1, which is not
wrapped back into `[0, 1)` (the code subtracts 1 at most once). -/
theorem pa_tick_no_wrap :
    ((PhaseAccumulator.init.setFrequency 44100).tick).2.phase = 1 ∧
    ¬ ((PhaseAccumulator.init.setFrequency 44100).tick).2.phase < 1 := by
  norm_num [PhaseAccumulator.init, PhaseAccumulator.setFrequency,
    PhaseAccumulator.tick, SAMPLE_RATE_F]

lemma mul_pow_mod_fixed {k x : ℕ} (hk : 0 < k) (hx : x < 2 ^ 32)
    (h : (x * 2 ^ k) % 2 ^ 32 = x) : x = 0 := by
  have aux : ∀ n : ℕ, x = 0 ∨ 2 ^ (n * k) ∣ x := by
    intro n
    induction n with
    | zero => right; simpa using one_dvd x
    | succ m ih =>
      rcases ih with h0 | hdvd
      · exact Or.inl h0
      obtain ⟨u, hu⟩ := hdvd
      by_cases hle : (m + 1) * k ≤ 32
      · right
        have h1 : x % 2 ^ ((m + 1) * k) = (x * 2 ^ k) % 2 ^ ((m + 1) * k) := by
          conv_lhs => rw [← h]
          exact Nat.mod_mod_of_dvd _ (pow_dvd_pow 2 hle)
        have h2 : (x * 2 ^ k) % 2 ^ ((m + 1) * k) = 0 := by
          have hx2 : x * 2 ^ k = u * 2 ^ ((m + 1) * k) := by
            rw [hu, Nat.succ_mul, pow_add]
            ring
          rw [hx2]
          exact Nat.mul_mod_left u _
        exact Nat.dvd_of_mod_eq_zero (h1.trans h2)
      · left
        have h32 : 2 ^ 32 ∣ x * 2 ^ k := by
          have hd : (2 : ℕ) ^ ((m + 1) * k) ∣ x * 2 ^ k := by
            refine ⟨u, ?_⟩
            rw [hu, Nat.succ_mul, pow_add]
            ring
          exact dvd_trans (pow_dvd_pow 2 (by omega)) hd
        have hz : (x * 2 ^ k) % 2 ^ 32 = 0 := Nat.mod_eq_zero_of_dvd h32
        rw [← h, hz]
  rcases aux 33 with h0 | hdvd
  · exact h0
  · refine Nat.eq_zero_of_dvd_of_lt hdvd (lt_of_lt_of_le hx ?_)
    exact Nat.pow_le_pow_right (by norm_num) (by omega)

lemma xor_shl_ne_zero {k x : ℕ} (hk : 0 < k) (hx0 : x ≠ 0) (hx : x < 2 ^ 32) :
    x ^^^ ((x <<< k) % 2 ^ 32) ≠ 0 := by
  intro h
  apply hx0
  have heq : x = (x <<< k) % 2 ^ 32 := Nat.xor_eq_zero.mp h
  rw [Nat.shiftLeft_eq] at heq
  exact mul_pow_mod_fixed hk hx heq.symm

lemma xor_shr17_ne_zero {x : ℕ} (hx0 : x ≠ 0) : x ^^^ (x >>> 17) ≠ 0 := by
  intro h
  apply hx0
  have heq : x = x >>> 17 := Nat.xor_eq_zero.mp h
  rw [Nat.shiftRight_eq_div_pow] at heq
  rcases Nat.eq_zero_or_pos x with h0 | hpos
  · exact h0
  · exact absurd heq.symm (ne_of_lt (Nat.div_lt_self hpos (by norm_num)))

lemma xorshift32_ne_zero {x : ℕ} (hx0 : x ≠ 0) (hx : x < 2 ^ 32) :
    xorshift32 x ≠ 0 ∧ xorshift32 x < 2 ^ 32 := by
  unfold xorshift32
  have hmod : (x <<< 13) % 2 ^ 32 < 2 ^ 32 := Nat.mod_lt _ (by positivity)
  have ha0 : x ^^^ ((x <<< 13) % 2 ^ 32) ≠ 0 :=
    xor_shl_ne_zero (by norm_num) hx0 hx
  have ha : x ^^^ ((x <<< 13) % 2 ^ 32) < 2 ^ 32 := Nat.xor_lt_two_pow hx hmod
  set a := x ^^^ ((x <<< 13) % 2 ^ 32) with hadef
  have hs : a >>> 17 < 2 ^ 32 := by
    rw [Nat.shiftRight_eq_div_pow]
    exact lt_of_le_of_lt (Nat.div_le_self _ _) ha
  have hb0 : a ^^^ (a >>> 17) ≠ 0 := xor_shr17_ne_zero ha0
  have hb : a ^^^ (a >>> 17) < 2 ^ 32 := Nat.xor_lt_two_pow ha hs
  set b := a ^^^ (a >>> 17) with hbdef
  have hmod5 : (b <<< 5) % 2 ^ 32 < 2 ^ 32 := Nat.mod_lt _ (by positivity)
  exact ⟨xor_shl_ne_zero (by norm_num) hb0 hb, Nat.xor_lt_two_pow hb hmod5⟩

/-- C9: seeding with 0 (constructor or `reset(0)`) stores state 1, and the
xorshift update of `process()` never maps a nonzero 32-bit state to zero,
so every noise generator state stays nonzero across `process()` calls. -/
theorem noise_state_nonzero (x : ℕ) (hx0 : x ≠ 0) (hx : x < 2 ^ 32) :
    (NoiseGenerator.init 0).state = 1 ∧
    (∀ n : NoiseGenerator, (n.resetSeed 0).state = 1) ∧
    xorshift32 x ≠ 0 ∧ xorshift32 x < 2 ^ 32 ∧
    (∀ n : NoiseGenerator, n.state = x →
      ((n.process).2.state ≠ 0 ∧ (n.process).2.state < 2 ^ 32)) := by
  obtain ⟨h1, h2⟩ := xorshift32_ne_zero hx0 hx
  refine ⟨rfl, fun n => rfl, h1, h2, ?_⟩
  intro n hn
  simp only [NoiseGenerator.process, hn]
  exact ⟨h1, h2⟩

theorem noise_state_nonzero_witness :
    ((123 : ℕ) ≠ 0 ∧ (123 : ℕ) < 2 ^ 32) ∧
    xorshift32 123 ≠ 0 ∧ xorshift32 123 < 2 ^ 32 :=
  ⟨⟨by norm_num, by norm_num⟩,
    (noise_state_nonzero 123 (by norm_num) (by norm_num)).2.2.1,
    (noise_state_nonzero 123 (by norm_num) (by norm_num)).2.2.2.1⟩

lemma ADSR_process_inv {e : ADSR} (h : ADSRInv e) : ADSRInv (e.process).2 := by
  obtain ⟨hsr, hl0, hl1, hs0, hs1, ha, hd, hr, hA, hD, hR⟩ := h
  unfold ADSRInv
  cases hst : e.stage with
  | IDLE =>
    simp only [ADSR.process, hst]
    refine ⟨hsr, le_refl 0, by norm_num, hs0, hs1, ha, hd, hr, ?_, ?_, ?_⟩ <;>
      intro hh <;> simp at hh
  | ATTACK =>
    have hApos : 0 ≤ e.increment := hA hst
    simp only [ADSR.process, hst]
    split_ifs with hone
    · refine ⟨hsr, by norm_num, by norm_num, hs0, hs1, ha, hd, hr, ?_, ?_, ?_⟩
      · intro hh; simp at hh
      · intro _; simp; linarith
      · intro hh; simp at hh
    · refine ⟨hsr, by simp; linarith, by simp; linarith, hs0, hs1, ha, hd, hr,
        ?_, ?_, ?_⟩
      · intro _; simpa using hApos
      · intro hh; simp at hh
      · intro hh; simp at hh
  | DECAY =>
    have hDneg : e.increment ≤ 0 := hD hst
    simp only [ADSR.process, hst]
    split_ifs with hsus
    · refine ⟨hsr, by simpa using hs0, by simpa using hs1, hs0, hs1, ha, hd,
        hr, ?_, ?_, ?_⟩ <;> intro hh <;> simp at hh
    · push_neg at hsus
      refine ⟨hsr, by simp; linarith, by simp; linarith, hs0, hs1, ha, hd, hr,
        ?_, ?_, ?_⟩
      · intro hh; simp at hh
      · intro _; simpa using hDneg
      · intro hh; simp at hh
  | SUSTAIN =>
    simp only [ADSR.process, hst]
    refine ⟨hsr, by simpa using hs0, by simpa using hs1, hs0, hs1, ha, hd, hr,
      ?_, ?_, ?_⟩ <;> intro hh <;> simp at hh
  | RELEASE =>
    have hRneg : e.increment ≤ 0 := hR hst
    simp only [ADSR.process, hst]
    split_ifs with hzero
    · refine ⟨hsr, le_refl 0, by norm_num, hs0, hs1, ha, hd, hr, ?_, ?_, ?_⟩ <;>
        intro hh <;> simp at hh
    · push_neg at hzero
      refine ⟨hsr, by simp; linarith, by simp; linarith, hs0, hs1, ha, hd, hr,
        ?_, ?_, ?_⟩
      · intro hh; simp at hh
      · intro hh; simp at hh
      · intro _; simpa using hRneg

lemma ADSR_applyOp_inv {e : ADSR} (h : ADSRInv e) (op : ADSROp) :
    ADSRInv (e.applyOp op) := by
  obtain ⟨hsr, hl0, hl1, hs0, hs1, ha, hd, hr, hA, hD, hR⟩ := h
  cases op with
  | noteOnOp =>
    refine ⟨hsr, hl0, hl1, hs0, hs1, ha, hd, hr, ?_, ?_, ?_⟩
    · intro _; simpa using ha
    · intro hh; simp [ADSR.applyOp, ADSR.noteOn] at hh
    · intro hh; simp [ADSR.applyOp, ADSR.noteOn] at hh
  | noteOffOp =>
    simp only [ADSR.applyOp, ADSR.noteOff]
    split_ifs with hidle
    · exact ⟨hsr, hl0, hl1, hs0, hs1, ha, hd, hr, hA, hD, hR⟩
    · refine ⟨hsr, hl0, hl1, hs0, hs1, ha, hd, hr, ?_, ?_, ?_⟩
      · intro hh; simp at hh
      · intro hh; simp at hh
      · intro _; simp; linarith
  | resetOp =>
    simp only [ADSR.applyOp, ADSR.resetEnv]
    refine ⟨hsr, le_refl 0, by norm_num, hs0, hs1, ha, hd, hr, ?_, ?_, ?_⟩ <;>
      intro hh <;> simp at hh
  | setADSROp a d s r =>
    simp only [ADSR.applyOp, ADSR.setADSR, ADSR.updateIncrements]
    obtain ⟨hc0, hc1⟩ := clampQ_bounds s 0 1 (by norm_num)
    have hat : (0 : ℚ) < max (1 / 1000) a := lt_of_lt_of_le (by norm_num)
      (le_max_left _ _)
    have hdt : (0 : ℚ) < max (1 / 1000) d := lt_of_lt_of_le (by norm_num)
      (le_max_left _ _)
    have hrt : (0 : ℚ) < max (1 / 1000) r := lt_of_lt_of_le (by norm_num)
      (le_max_left _ _)
    refine ⟨hsr, hl0, hl1, hc0, hc1, ?_, ?_, ?_, hA, hD, hR⟩
    · positivity
    · have : (0 : ℚ) ≤ 1 - clampQ s 0 1 := by linarith
      positivity
    · positivity
  | processOp =>
    exact ADSR_process_inv ⟨hsr, hl0, hl1, hs0, hs1, ha, hd, hr, hA, hD, hR⟩

lemma ADSR_run_inv (ops : List ADSROp) :
    ∀ e : ADSR, ADSRInv e → ADSRInv (e.run ops) := by
  induction ops with
  | nil => intro e h; exact h
  | cons op rest ih => intro e h; exact ih (e.applyOp op) (ADSR_applyOp_inv h op)

lemma ADSR_init_inv (sr : ℚ) (hsr : 0 < sr) : ADSRInv (ADSR.init sr) := by
  unfold ADSRInv ADSR.init
  refine ⟨hsr, le_refl 0, by norm_num, by norm_num, by norm_num, le_refl 0,
    le_refl 0, le_refl 0, ?_, ?_, ?_⟩ <;> intro hh <;> simp at hh

lemma AR_process_inv {e : AR} (h : ARInv e) : ARInv (e.process).2 := by
  obtain ⟨hsr, hl0, hl1, ha, hr, hA, hR⟩ := h
  unfold ARInv
  cases hst : e.stage with
  | IDLE =>
    simp only [AR.process, hst]
    refine ⟨hsr, le_refl 0, by norm_num, ha, hr, ?_, ?_⟩ <;>
      intro hh <;> simp at hh
  | ATTACK =>
    have hApos : 0 ≤ e.increment := hA hst
    simp only [AR.process, hst]
    split_ifs with hone
    · refine ⟨hsr, by norm_num, by norm_num, ha, hr, ?_, ?_⟩
      · intro hh; simp at hh
      · intro _; simp; linarith
    · refine ⟨hsr, by simp; linarith, by simp; linarith, ha, hr, ?_, ?_⟩
      · intro _; simpa using hApos
      · intro hh; simp at hh
  | RELEASE =>
    have hRneg : e.increment ≤ 0 := hR hst
    simp only [AR.process, hst]
    split_ifs with hzero
    · refine ⟨hsr, le_refl 0, by norm_num, ha, hr, ?_, ?_⟩ <;>
        intro hh <;> simp at hh
    · push_neg at hzero
      refine ⟨hsr, by simp; linarith, by simp; linarith, ha, hr, ?_, ?_⟩
      · intro hh; simp at hh
      · intro _; simpa using hRneg

lemma AR_applyOp_inv {e : AR} (h : ARInv e) (op : AROp) :
    ARInv (e.applyOp op) := by
  obtain ⟨hsr, hl0, hl1, ha, hr, hA, hR⟩ := h
  cases op with
  | triggerOp =>
    refine ⟨hsr, hl0, hl1, ha, hr, ?_, ?_⟩
    · intro _; simpa using ha
    · intro hh; simp [AR.applyOp, AR.trigger] at hh
  | resetOp =>
    simp only [AR.applyOp, AR.resetEnv]
    refine ⟨hsr, le_refl 0, by norm_num, ha, hr, ?_, ?_⟩ <;>
      intro hh <;> simp at hh
  | setAROp a r =>
    simp only [AR.applyOp, AR.setAR, AR.updateIncrements]
    have hat : (0 : ℚ) < max (1 / 1000) a := lt_of_lt_of_le (by norm_num)
      (le_max_left _ _)
    have hrt : (0 : ℚ) < max (1 / 1000) r := lt_of_lt_of_le (by norm_num)
      (le_max_left _ _)
    refine ⟨hsr, hl0, hl1, ?_, ?_, hA, hR⟩ <;> positivity
  | processOp =>
    exact AR_process_inv ⟨hsr, hl0, hl1, ha, hr, hA, hR⟩

lemma AR_run_inv (ops : List AROp) :
    ∀ e : AR, ARInv e → ARInv (e.run ops) := by
  induction ops with
  | nil => intro e h; exact h
  | cons op rest ih => intro e h; exact ih (e.applyOp op) (AR_applyOp_inv h op)

lemma AR_init_inv (sr : ℚ) (hsr : 0 < sr) : ARInv (AR.init sr) := by
  unfold ARInv AR.init
  refine ⟨hsr, le_refl 0, by norm_num, le_refl 0, le_refl 0, ?_, ?_⟩ <;>
    intro hh <;> simp at hh

/-- C10: starting from a fresh ADSR or AR envelope at a positive sample
rate, after any sequence of `noteOn`/`noteOff`/`trigger`/`reset`/
`setADSR`/`setAR`/`process` calls, the stored level (which is also the
value `process()` returns) lies in `[0, 1]`. -/
theorem envelope_level_in_unit_interval (sr : ℚ) (hsr : 0 < sr)
    (ops : List ADSROp) (ops2 : List AROp) :
    (0 ≤ ((ADSR.init sr).run ops).level ∧ ((ADSR.init sr).run ops).level ≤ 1) ∧
    (0 ≤ ((AR.init sr).run ops2).level ∧ ((AR.init sr).run ops2).level ≤ 1) ∧
    (∀ e : ADSR, (e.process).1 = (e.process).2.level) ∧
    (∀ e : AR, (e.process).1 = (e.process).2.level) := by
  obtain ⟨_, h1, h2, _⟩ := ADSR_run_inv ops (ADSR.init sr) (ADSR_init_inv sr hsr)
  obtain ⟨_, h3, h4, _⟩ := AR_run_inv ops2 (AR.init sr) (AR_init_inv sr hsr)
  refine ⟨⟨h1, h2⟩, ⟨h3, h4⟩, ?_, ?_⟩
  · intro e
    unfold ADSR.process
    cases e.stage <;> simp <;> split_ifs <;> simp
  · intro e
    unfold AR.process
    cases e.stage <;> simp <;> split_ifs <;> simp

theorem envelope_level_in_unit_interval_witness :
    (0 : ℚ) < 22050 ∧
    (0 ≤ ((ADSR.init 22050).run [.noteOnOp, .processOp]).level ∧
      ((ADSR.init 22050).run [.noteOnOp, .processOp]).level ≤ 1) ∧
    (0 ≤ ((AR.init 22050).run [.triggerOp, .processOp]).level ∧
      ((AR.init 22050).run [.triggerOp, .processOp]).level ≤ 1) :=
  ⟨by norm_num,
    (envelope_level_in_unit_interval 22050 (by norm_num)
      [.noteOnOp, .processOp] [.triggerOp, .processOp]).1,
    (envelope_level_in_unit_interval 22050 (by norm_num)
      [.noteOnOp, .processOp] [.triggerOp, .processOp]).2.1⟩

lemma ADSR_idle_zero_processN (k : ℕ) :
    ∀ s : ADSR, s.stage = .IDLE → s.level = 0 →
      (s.processN k).stage = .IDLE ∧ (s.processN k).level = 0 := by
  induction k with
  | zero => intro s h1 h2; exact ⟨h1, h2⟩
  | succ m ih =>
    intro s h1 h2
    show ((s.process).2.processN m).stage = _ ∧ ((s.process).2.processN m).level = _
    have hp : (s.process).2.stage = .IDLE ∧ (s.process).2.level = 0 := by
      refine ⟨?_, ?_⟩ <;> simp [ADSR.process, h1]
    exact ih (s.process).2 hp.1 hp.2

lemma ADSR_release_closed_form (δ : ℚ) (hδ : 0 < δ) :
    ∀ (k : ℕ) (s : ADSR), s.stage = .RELEASE → s.increment = -δ →
      0 < s.level →
      (0 < s.level - (k : ℚ) * δ →
        (s.processN k).stage = .RELEASE ∧
        (s.processN k).level = s.level - (k : ℚ) * δ ∧
        (s.processN k).increment = -δ) ∧
      (s.level - (k : ℚ) * δ ≤ 0 →
        (s.processN k).stage = .IDLE ∧ (s.processN k).level = 0) := by
  intro k
  induction k with
  | zero =>
    intro s hst hinc hlev
    constructor
    · intro _
      refine ⟨hst, ?_, hinc⟩
      show s.level = s.level - ((0 : ℕ) : ℚ) * δ
      push_cast
      ring
    · intro h0
      exfalso
      simp only [Nat.cast_zero, zero_mul, sub_zero] at h0
      linarith
  | succ m ih =>
    intro s hst hinc hlev
    have hstep : ∀ t : ADSR, s.processN (m + 1) = ((s.process).2).processN m :=
      fun _ => rfl
    by_cases hle : s.level + s.increment ≤ 0
    · have hproc : (s.process).2 =
          { s with level := 0, stage := .IDLE, increment := 0 } := by
        simp only [ADSR.process, hst]
        rw [if_pos hle]
      have hidle := ADSR_idle_zero_processN m (s.process).2
        (by rw [hproc]) (by rw [hproc])
      constructor
      · intro hpos
        exfalso
        have hk : (0 : ℚ) ≤ (m : ℚ) := Nat.cast_nonneg m
        push_cast at hpos
        rw [hinc] at hle
        nlinarith
      · intro _
        exact ⟨(hstep s ▸ hidle.1 : _), (hstep s ▸ hidle.2 : _)⟩
    · push_neg at hle
      have hproc : (s.process).2 =
          { s with level := s.level + s.increment } := by
        simp only [ADSR.process, hst]
        rw [if_neg (not_le.mpr hle)]
      have hlev2 : 0 < s.level + s.increment := hle
      have ihs := ih (s.process).2
        (by rw [hproc]; exact hst) (by rw [hproc]; exact hinc)
        (by rw [hproc]; exact hlev2)
      have hlvl : (s.process).2.level = s.level - δ := by
        rw [hproc]
        show s.level + s.increment = _
        rw [hinc]
        ring
      constructor
      · intro hpos
        have hc : 0 < (s.process).2.level - (m : ℚ) * δ := by
          rw [hlvl]
          push_cast at hpos
          linarith
        obtain ⟨g1, g2, g3⟩ := ihs.1 hc
        refine ⟨hstep s ▸ g1, ?_, hstep s ▸ g3⟩
        rw [hstep s, g2, hlvl]
        push_cast
        ring
      · intro hneg
        have hc : (s.process).2.level - (m : ℚ) * δ ≤ 0 := by
          rw [hlvl]
          push_cast at hneg
          linarith
        obtain ⟨g1, g2⟩ := ihs.2 hc
        exact ⟨hstep s ▸ g1, hstep s ▸ g2⟩

/-- C8 (amended): `noteOff()` from `Idle` leaves the state unchanged; from
any other stage — provided the precomputed `release_inc_` is consistent
with the current parameters (as `setADSR`/`setSampleRate` guarantee) and
the sustain level is positive — it forces `Release` with increment
`-sustain/(release_seconds·sample_rate)`, and repeated `process()` calls
strictly decrease the level until it reaches 0, at which point the stage
becomes `Idle`. -/
theorem adsr_noteOff_release (e : ADSR)
    (hcons : e.release_inc = e.sustain_level / (e.release_time * e.sample_rate))
    (hsus : 0 < e.sustain_level) (hrel : 0 < e.release_time)
    (hsr : 0 < e.sample_rate) (hlev : 0 < e.level) :
    (∀ s : ADSR, s.stage = .IDLE → s.noteOff = s) ∧
    (e.stage ≠ .IDLE →
      (e.noteOff.stage = .RELEASE ∧
       e.noteOff.increment
         = -(e.sustain_level / (e.release_time * e.sample_rate)) ∧
       ∃ n : ℕ, (e.noteOff.processN n).stage = .IDLE ∧
         (e.noteOff.processN n).level = 0 ∧
         ∀ k : ℕ, k < n →
           (e.noteOff.processN (k + 1)).level
             < (e.noteOff.processN k).level)) := by
  constructor
  · intro s hs
    unfold ADSR.noteOff
    rw [if_pos hs]
  · intro hne
    have hoff : e.noteOff =
        { e with stage := .RELEASE, target := 0, increment := -e.release_inc } := by
      unfold ADSR.noteOff
      rw [if_neg hne]
    set δ : ℚ := e.sustain_level / (e.release_time * e.sample_rate) with hδdef
    have hδ : 0 < δ := by positivity
    have hst : e.noteOff.stage = .RELEASE := by rw [hoff]
    have hinc : e.noteOff.increment = -δ := by rw [hoff, hcons]
    have hlev2 : 0 < e.noteOff.level := by rw [hoff]; exact hlev
    refine ⟨hst, by rw [hinc], ?_⟩
    have hex : ∃ n : ℕ, e.noteOff.level - (n : ℚ) * δ ≤ 0 := by
      obtain ⟨n, hn⟩ := exists_nat_gt (e.noteOff.level / δ)
      refine ⟨n, ?_⟩
      have := (div_lt_iff hδ).mp hn
      linarith
    classical
    set n₀ := Nat.find hex with hn₀
    have hspec : e.noteOff.level - (n₀ : ℚ) * δ ≤ 0 := Nat.find_spec hex
    have hmin : ∀ k, k < n₀ → 0 < e.noteOff.level - (k : ℚ) * δ := by
      intro k hk
      have := Nat.find_min hex hk
      linarith [not_le.mp this]
    have hclosed := fun k => ADSR_release_closed_form δ hδ k e.noteOff hst hinc hlev2
    refine ⟨n₀, ((hclosed n₀).2 hspec).1, ((hclosed n₀).2 hspec).2, ?_⟩
    intro k hk
    have hkpos := hmin k hk
    obtain ⟨_, hlk, _⟩ := (hclosed k).1 hkpos
    by_cases hnext : 0 < e.noteOff.level - ((k + 1 : ℕ) : ℚ) * δ
    · obtain ⟨_, hlk1, _⟩ := (hclosed (k + 1)).1 hnext
      rw [hlk1, hlk]
      push_cast
      nlinarith
    · push_neg at hnext
      obtain ⟨_, hlk1⟩ := (hclosed (k + 1)).2 hnext
      rw [hlk1, hlk]
      linarith

theorem adsr_noteOff_release_witness :
    (c8State.release_inc
        = c8State.sustain_level / (c8State.release_time * c8State.sample_rate) ∧
      0 < c8State.sustain_level ∧ 0 < c8State.release_time ∧
      0 < c8State.sample_rate ∧ 0 < c8State.level ∧ c8State.stage ≠ .IDLE) ∧
    (c8State.noteOff.stage = .RELEASE ∧
     c8State.noteOff.increment
       = -(c8State.sustain_level / (c8State.release_time * c8State.sample_rate)) ∧
     ∃ n : ℕ, (c8State.noteOff.processN n).stage = .IDLE ∧
       (c8State.noteOff.processN n).level = 0 ∧
       ∀ k : ℕ, k < n →
         (c8State.noteOff.processN (k + 1)).level
           < (c8State.noteOff.processN k).level) :=
  ⟨⟨by norm_num [c8State], by norm_num [c8State], by norm_num [c8State],
     by norm_num [c8State], by norm_num [c8State], by decide⟩,
   (adsr_noteOff_release c8State (by norm_num [c8State])
     (by norm_num [c8State]) (by norm_num [c8State]) (by norm_num [c8State])
     (by norm_num [c8State])).2 (by decide)⟩

/-- C8 (counterexample): on a freshly constructed ADSR (whose precomputed
increments are still 0) `noteOn(); noteOff()` stores increment 0, not
`-sustain/(release·sample_rate) = -(7/10)/((3/10)·22050)`; and after
`setADSR(1, 1, 0, 1)` (sustain clamped to 0) a `noteOff()` from Attack at
level `1/22050` is followed by a `process()` that leaves the level and the
Release stage unchanged — the level never decreases toward 0. -/
theorem adsr_noteOff_counterexample :
    ((ADSR.init 22050).noteOn.noteOff.increment = 0 ∧
      -((7 : ℚ) / 10 / (3 / 10 * 22050)) ≠ 0) ∧
    (((((ADSR.init 22050).setADSR 1 1 0 1).noteOn.process).2.noteOff.process).2
        = ((((ADSR.init 22050).setADSR 1 1 0 1).noteOn.process).2.noteOff) ∧
      ((((ADSR.init 22050).setADSR 1 1 0 1).noteOn.process).2.noteOff).level
        = 1 / 22050 ∧
      ((((ADSR.init 22050).setADSR 1 1 0 1).noteOn.process).2.noteOff).stage
        = .RELEASE) := by
  have h1 : (ADSR.init 22050).setADSR 1 1 0 1
      = ⟨.IDLE, 0, 0, 0, 1, 1, 0, 1, 22050, 1 / 22050, 1 / 22050, 0⟩ := by
    norm_num [ADSR.init, ADSR.setADSR, ADSR.updateIncrements, clampQ,
      ADSR.mk.injEq]
  have h2 : (⟨.IDLE, 0, 0, 0, 1, 1, 0, 1, 22050, 1 / 22050, 1 / 22050, 0⟩ :
        ADSR).noteOn
      = ⟨.ATTACK, 0, 1, 1 / 22050, 1, 1, 0, 1, 22050, 1 / 22050, 1 / 22050,
          0⟩ := by
    norm_num [ADSR.noteOn, ADSR.mk.injEq]
  have h3 : ((⟨.ATTACK, 0, 1, 1 / 22050, 1, 1, 0, 1, 22050, 1 / 22050,
        1 / 22050, 0⟩ : ADSR).process).2
      = ⟨.ATTACK, 1 / 22050, 1, 1 / 22050, 1, 1, 0, 1, 22050, 1 / 22050,
          1 / 22050, 0⟩ := by
    norm_num [ADSR.process, ADSR.mk.injEq]
  have h4 : (⟨.ATTACK, 1 / 22050, 1, 1 / 22050, 1, 1, 0, 1, 22050, 1 / 22050,
        1 / 22050, 0⟩ : ADSR).noteOff
      = ⟨.RELEASE, 1 / 22050, 0, 0, 1, 1, 0, 1, 22050, 1 / 22050, 1 / 22050,
          0⟩ := by
    norm_num [ADSR.noteOff, ADSR.mk.injEq] <;> decide
  have h5 : ((⟨.RELEASE, 1 / 22050, 0, 0, 1, 1, 0, 1, 22050, 1 / 22050,
        1 / 22050, 0⟩ : ADSR).process).2
      = ⟨.RELEASE, 1 / 22050, 0, 0, 1, 1, 0, 1, 22050, 1 / 22050, 1 / 22050,
          0⟩ := by
    norm_num [ADSR.process, ADSR.mk.injEq]
  refine ⟨⟨?_, by norm_num⟩, ?_, ?_, ?_⟩
  · simp [ADSR.init, ADSR.noteOn, ADSR.noteOff]
  · rw [h1, h2, h3, h4, h5]
  · rw [h1, h2, h3, h4]
  · rw [h1, h2, h3, h4]

lemma sineTable_20_bounds :
    4005 ≤ sineTable.samples 20 ∧ sineTable.samples 20 ≤ 4021 := by
  have hθ : 2 * Real.pi * ((20 : ℕ) : ℝ) / 1024 = Real.pi * (5 / 128) := by
    push_cast
    ring
  set x : ℝ := Real.pi * (5 / 128) with hx
  have hπl : (3.141592 : ℝ) < Real.pi := Real.pi_gt_d6
  have hπu : Real.pi < 3.141593 := Real.pi_lt_d6
  have hxl : (0.1227 : ℝ) < x := by rw [hx]; nlinarith
  have hxu : x < 0.122719 := by rw [hx]; nlinarith
  have hx0 : (0 : ℝ) < x := by linarith
  have hx1 : x ≤ 1 := by linarith
  have hsu : Real.sin x < 0.122719 := lt_trans (Real.sin_lt hx0) hxu
  have hcube : x ^ 3 ≤ (0.122719 : ℝ) ^ 3 :=
    pow_le_pow_left (le_of_lt hx0) (le_of_lt hxu) 3
  have hsl : (0.12223 : ℝ) < Real.sin x := by
    have h := Real.sin_gt_sub_cube hx0 hx1
    nlinarith
  have hs1 : (-1 : ℝ) ≤ Real.sin x := Real.neg_one_le_sin x
  have hs2 : Real.sin x ≤ 1 := Real.sin_le_one x
  have hsample : sineTable.samples 20 = ⌊Real.sin x * 32767⌋ := by
    show quantizeR (Real.sin (2 * Real.pi * ((20 : ℕ) : ℝ) / 1024)) = _
    rw [hθ]
    unfold quantizeR clampR truncR
    rw [if_neg (not_lt.mpr hs1), if_neg (not_lt.mpr hs2),
      if_neg (not_lt.mpr (by nlinarith))]
  constructor
  · rw [hsample, Int.le_floor]
    push_cast
    nlinarith
  · rw [hsample]
    have h1 : ⌊Real.sin x * 32767⌋ < 4022 := by
      rw [Int.floor_lt]
      push_cast
      nlinarith
    omega

lemma sineTable_21_bounds :
    4204 ≤ sineTable.samples 21 ∧ sineTable.samples 21 ≤ 4222 := by
  have hθ : 2 * Real.pi * ((21 : ℕ) : ℝ) / 1024 = Real.pi * (21 / 512) := by
    push_cast
    ring
  set x : ℝ := Real.pi * (21 / 512) with hx
  have hπl : (3.141592 : ℝ) < Real.pi := Real.pi_gt_d6
  have hπu : Real.pi < 3.141593 := Real.pi_lt_d6
  have hxl : (0.128854 : ℝ) < x := by rw [hx]; nlinarith
  have hxu : x < 0.128855 := by rw [hx]; nlinarith
  have hx0 : (0 : ℝ) < x := by linarith
  have hx1 : x ≤ 1 := by linarith
  have hsu : Real.sin x < 0.128855 := lt_trans (Real.sin_lt hx0) hxu
  have hcube : x ^ 3 ≤ (0.128855 : ℝ) ^ 3 :=
    pow_le_pow_left (le_of_lt hx0) (le_of_lt hxu) 3
  have hsl : (0.12831 : ℝ) < Real.sin x := by
    have h := Real.sin_gt_sub_cube hx0 hx1
    nlinarith
  have hs1 : (-1 : ℝ) ≤ Real.sin x := Real.neg_one_le_sin x
  have hs2 : Real.sin x ≤ 1 := Real.sin_le_one x
  have hsample : sineTable.samples 21 = ⌊Real.sin x * 32767⌋ := by
    show quantizeR (Real.sin (2 * Real.pi * ((21 : ℕ) : ℝ) / 1024)) = _
    rw [hθ]
    unfold quantizeR clampR truncR
    rw [if_neg (not_lt.mpr hs1), if_neg (not_lt.mpr hs2),
      if_neg (not_lt.mpr (by nlinarith))]
  constructor
  · rw [hsample, Int.le_floor]
    push_cast
    nlinarith
  · rw [hsample]
    have h1 : ⌊Real.sin x * 32767⌋ < 4223 := by
      rw [Int.floor_lt]
      push_cast
      nlinarith
    omega

lemma c2FirstOut_eq :
    c2FirstOut = ((sineTable.samples 20 : ℚ)
      + 956 / 2205 * ((sineTable.samples 21 : ℚ) - (sineTable.samples 20 : ℚ)))
      / 32767 := by
  unfold c2FirstOut c2Osc WavetableOscillator.process WavetableOscillator.reset
    WavetableOscillator.setFrequency PhaseAccumulator.setFrequency
    PhaseAccumulator.reset PhaseAccumulator.tick Wavetable.getInterpolated
    SAMPLE_SCALE
  simp only [show sineTable.size = 1024 from rfl]
  norm_num [show Int.toNat 20 = 20 from rfl]

lemma c2FirstOut_bounds :
    (31 / 250 : ℚ) ≤ c2FirstOut ∧ c2FirstOut ≤ 63 / 500 := by
  obtain ⟨h1, h2⟩ := sineTable_20_bounds
  obtain ⟨h3, h4⟩ := sineTable_21_bounds
  have h1q : (4005 : ℚ) ≤ (sineTable.samples 20 : ℚ) := by exact_mod_cast h1
  have h2q : (sineTable.samples 20 : ℚ) ≤ 4021 := by exact_mod_cast h2
  have h3q : (4204 : ℚ) ≤ (sineTable.samples 21 : ℚ) := by exact_mod_cast h3
  have h4q : (sineTable.samples 21 : ℚ) ≤ 4222 := by exact_mod_cast h4
  rw [c2FirstOut_eq]
  constructor <;> linarith

/-- C2 (counterexample): the first `process()` call of a sine oscillator at
440 Hz / 22050 Hz / amplitude 1 with phase reset to zero does NOT return
0.0 within quantization error 1/32767 — the call advances the phase before
the table lookup, so the first sample is ≈ 0.125. -/
theorem c2_first_sample_not_zero : ¬ (|c2FirstOut| ≤ 1 / 32767) := by
  obtain ⟨h1, _⟩ := c2FirstOut_bounds
  intro h
  have h2 := (abs_le.mp h).2
  linarith

/-- C2 (amended): `process()` advances the phase before the lookup, so the
first returned sample corresponds to phase `440/22050`, not to phase 0: it
lies in `[0.124, 0.126]` (≈ `sin(2π·440/22050) ≈ 0.125`), while the table
value at phase 0 itself is exactly 0. -/
theorem c2_first_sample_amended :
    ((31 / 250 : ℚ) ≤ c2FirstOut ∧ c2FirstOut ≤ 63 / 500) ∧
    sineTable.getInterpolated 0 = 0 := by
  refine ⟨c2FirstOut_bounds, ?_⟩
  have hzero : 2 * Real.pi * ((0 : ℕ) : ℝ) / 1024 = 0 := by
    push_cast
    ring
  have hs0 : sineTable.samples 0 = 0 := by
    show quantizeR (Real.sin (2 * Real.pi * ((0 : ℕ) : ℝ) / 1024)) = 0
    rw [hzero, Real.sin_zero]
    unfold quantizeR clampR truncR
    norm_num
  unfold Wavetable.getInterpolated SAMPLE_SCALE
  simp only [show sineTable.size = 1024 from rfl]
  norm_num [hs0]

end KoeKit
